import Mathlib

/-!
Shallow embedding of `src/generate_syscalls.py`, a build-time generator that
turns a registry of syscall metadata into numeric constant tables, name-lookup
functions, identity helpers, static assertions and argument-recording dispatch
cases.  The registry module (`syscalls`) is an external collaborator; its query
surface (`all()`, `for_arch`) is modelled from the specification.  Text output
is modelled as lists of emitted lines; the generated Rust/C++ helper functions
are modelled by their semantics.
-/

namespace GenSyscalls

/-- Architecture tags supported by the generator (`'x86'` / `'x64'` strings in
the Python source). -/
inductive Arch
  | x86
  | x64
deriving DecidableEq, Repr

/-- Kind of a syscall: `RegularSyscall` versus `IrregularSyscall` in the
registry. -/
inductive Kind
  | Regular
  | Irregular
deriving DecidableEq, Repr

/-- One registry entry: per-architecture optional code (absent means the
syscall is undefined on that architecture) and up to five optional
argument-descriptor strings used by the recorder generator. -/
structure SyscallDef where
  kind : Kind
  x86 : Option Nat
  x64 : Option Nat
  arg1 : Option String := none
  arg2 : Option String := none
  arg3 : Option String := none
  arg4 : Option String := none
  arg5 : Option String := none
deriving DecidableEq, Repr

/-- The registry enumeration `syscalls.all()`: a sequence of
(canonical name, definition) pairs in registry-native order. -/
abbrev Registry := List (String × SyscallDef)

/-- Dynamic per-architecture field access `getattr(obj, arch)`. -/
def getArch (obj : SyscallDef) : Arch → Option Nat
  | Arch.x86 => obj.x86
  | Arch.x64 => obj.x64

/-- Python's `str.upper()` restricted to what the generator needs: uppercase
every character of the canonical name. -/
def upper (s : String) : String :=
  String.mk (s.data.map Char.toUpper)

/-- Source `arch_syscall_number(arch, syscall)`: the syscall's code on `arch`,
with `-1` substituted when the code is undefined.  `syscall` is a
(name, definition) pair, as in the Python source. -/
def arch_syscall_number (arch : Arch) (syscall : String × SyscallDef) : Int :=
  match getArch syscall.2 arch with
  | some s => (s : Int)
  | none => -1

/-- Comparison used by `sorted(syscalls.all(), key=lambda x:
arch_syscall_number(arch, x))`: ordering of the sort keys. -/
def keyLe (arch : Arch) (a b : String × SyscallDef) : Prop :=
  arch_syscall_number arch a ≤ arch_syscall_number arch b

instance (arch : Arch) : DecidableRel (keyLe arch) :=
  fun a b => Int.decLe (arch_syscall_number arch a) (arch_syscall_number arch b)

instance (arch : Arch) : IsTotal (String × SyscallDef) (keyLe arch) :=
  ⟨fun a b => Int.le_total (arch_syscall_number arch a) (arch_syscall_number arch b)⟩

instance (arch : Arch) : IsTrans (String × SyscallDef) (keyLe arch) :=
  ⟨fun _ _ _ hab hbc => le_trans hab hbc⟩

/-- Python's `sorted` with the `arch_syscall_number` key: a stable sort,
modelled by insertion sort on the key ordering. -/
def sortedSyscalls (arch : Arch) (reg : Registry) : Registry :=
  reg.insertionSort (keyLe arch)

/-- Loop body of `write_syscall_consts` / `write_syscall_consts_for_tests`:
walks the sorted enumeration threading the `undefined_syscall` counter, and
yields for each syscall the pair (uppercased name, emitted value): the code
verbatim when defined, the current sentinel otherwise. -/
def write_syscall_consts_loop (arch : Arch) :
    List (String × SyscallDef) → Int → List (String × Int)
  | [], _ => []
  | (name, obj) :: rest, undefined_syscall =>
    match getArch obj arch with
    | some syscall_number =>
        (upper name, (syscall_number : Int)) ::
          write_syscall_consts_loop arch rest undefined_syscall
    | none =>
        (upper name, undefined_syscall) ::
          write_syscall_consts_loop arch rest (undefined_syscall - 1)

/-- The ordered (CONSTANT_NAME, value) table produced by
`write_syscall_consts(f, arch)`, before line rendering. -/
def constsEntries (arch : Arch) (reg : Registry) : List (String × Int) :=
  write_syscall_consts_loop arch (sortedSyscalls arch reg) (-1)

/-- Lines emitted by `write_syscall_consts(f, arch)`:
`"pub const %s : i32 = %d;\n" % (name.upper(), enum_number)` for each syscall,
then a blank line. -/
def write_syscall_consts (arch : Arch) (reg : Registry) : List String :=
  (constsEntries arch reg).map
    (fun p => "pub const " ++ p.1 ++ " : i32 = " ++ toString p.2 ++ ";\n")
    ++ ["\n"]

/-- Loop body of `write_syscall_consts_for_tests`, duplicated in the source
with the same sort, counter threading and value assignment as
`write_syscall_consts`, differing only in the emitted line format. -/
def write_syscall_consts_for_tests_loop (arch : Arch) :
    List (String × SyscallDef) → Int → List (String × Int)
  | [], _ => []
  | (name, obj) :: rest, undefined_syscall =>
    match getArch obj arch with
    | some syscall_number =>
        (upper name, (syscall_number : Int)) ::
          write_syscall_consts_for_tests_loop arch rest undefined_syscall
    | none =>
        (upper name, undefined_syscall) ::
          write_syscall_consts_for_tests_loop arch rest (undefined_syscall - 1)

/-- The ordered (CONSTANT_NAME, value) table produced by
`write_syscall_consts_for_tests(f, arch)`. -/
def constsForTestsEntries (arch : Arch) (reg : Registry) : List (String × Int) :=
  write_syscall_consts_for_tests_loop arch (sortedSyscalls arch reg) (-1)

/-- Lines emitted by `write_syscall_consts_for_tests(f, arch)`:
`"pub const RR_%s = %d,\n" % (name.upper(), enum_number)` per syscall, then a
blank line. -/
def write_syscall_consts_for_tests (arch : Arch) (reg : Registry) :
    List String :=
  (constsForTestsEntries arch reg).map
    (fun p => "pub const RR_" ++ p.1 ++ " = " ++ toString p.2 ++ ",\n")
    ++ ["\n"]

/-- Number of syscalls in an enumeration that are undefined on `arch`. -/
def countUndef (arch : Arch) (l : List (String × SyscallDef)) : Nat :=
  l.countP (fun p => (getArch p.2 arch).isNone)

/-- Values the constant loop assigns at the positions of syscalls undefined on
`arch`, extracted in emission order by pairing the loop's output with its
input. -/
def undefValues (arch : Arch) (l : List (String × SyscallDef)) (u : Int) :
    List Int :=
  ((write_syscall_consts_loop arch l u).zip l).filterMap
    (fun q => if (getArch q.2.2 arch).isNone then some q.1.2 else none)

/-- Modelled from the spec: the registry query `for_arch(arch)` — the
enumeration of `all()` restricted to syscalls with a defined code on `arch`,
in registry order.  The `syscalls` module is an external collaborator whose
source is not part of this repository. -/
def for_arch (arch : Arch) (reg : Registry) : Registry :=
  reg.filter (fun p => (getArch p.2 arch).isSome)

/-- Match arms of the generated `syscallname_arch` function: one arm per
syscall defined on `arch`, mapping that syscall's generated constant (its
code) to the canonical lowercase name. -/
def syscallname_arms (arch : Arch) (reg : Registry) : List (Int × String) :=
  (for_arch arch reg).map (fun p => (arch_syscall_number arch p, p.1))

/-- Semantics of the Rust function emitted by `write_syscallname_arch`: match
the input code against the arms in order (first match wins) and fall back to
the formatted unknown-syscall string. -/
def syscallname_arch (arch : Arch) (reg : Registry) (syscall : Int) : String :=
  match (syscallname_arms arch reg).find? (fun a => a.1 == syscall) with
  | some a => a.2
  | none => "<unknown-syscall-" ++ toString syscall ++ ">"

/-- Value of the generated constant `X86Arch::NAME` / `X64Arch::NAME` for a
syscall name: the value paired with the uppercased name in the generated
constant table, when the name occurs there. -/
def genConst (arch : Arch) (reg : Registry) (name : String) : Option Int :=
  ((constsEntries arch reg).find? (fun p => p.1 == upper name)).map Prod.snd

/-- Semantics of the generated `has_NAME_syscall(arch)` helper: dispatch on
the architecture and return `CONST >= 0`.  A name absent from the registry has
no generated constant (the emitted C++ would not compile); the model returns
`false` there. -/
def has_syscall (reg : Registry) (name : String) (arch : Arch) : Bool :=
  match genConst arch reg name with
  | some c => decide (0 ≤ c)
  | none => false

/-- Semantics of the generated `is_NAME_syscall(syscallno, arch)` helper:
`syscallno >= 0 && syscallno == CONST` on the dispatched architecture. -/
def is_syscall (reg : Registry) (name : String) (syscallno : Int)
    (arch : Arch) : Bool :=
  match genConst arch reg name with
  | some c => decide (0 ≤ syscallno) && (syscallno == c)
  | none => false

/-- Lines emitted by `write_check_syscall_numbers`.  The Python guard is
`if not obj.x86: continue`, which by truthiness skips both an undefined x86
code (`None`) and a defined x86 code of `0`. -/
def write_check_syscall_numbers (reg : Registry) : List String :=
  reg.filterMap (fun p =>
    match p.2.x86 with
    | none => none
    | some 0 => none
    | some _ =>
        some ("static_assert(X86Arch::" ++ p.1 ++ " == SYS_" ++ p.1
          ++ ", \"Incorrect syscall number for " ++ p.1 ++ "\");\n"))

/-- Dynamic argument-slot access `getattr(syscall, 'arg' + str(arg), None)`
for positions 1 through 5. -/
def argDescriptor (obj : SyscallDef) : Nat → Option String
  | 1 => obj.arg1
  | 2 => obj.arg2
  | 3 => obj.arg3
  | 4 => obj.arg4
  | 5 => obj.arg5
  | _ => none

/-- Source `write_recorder_for_arg`: a typed-parameter registration line when
the slot carries a descriptor string, nothing otherwise. -/
def write_recorder_for_arg (syscall : SyscallDef) (arg : Nat) : Option String :=
  match argDescriptor syscall arg with
  | some arg_descriptor =>
      some ("    syscall_state.reg_parameter<" ++ arg_descriptor ++ ">("
        ++ toString arg ++ ");\n")
  | none => none

/-- Dispatch-case block one syscall contributes to `write_syscall_record_cases`:
a case header, the registrations for positions 1..5 (`range(1,6)`) carrying a
descriptor, and the stop directive — for `Regular` syscalls only; `Irregular`
syscalls contribute nothing. -/
def recordBlock (p : String × SyscallDef) : List String :=
  match p.2.kind with
  | Kind.Regular =>
      ("  case Arch::" ++ p.1 ++ ":\n")
        :: ((List.range' 1 5).filterMap (write_recorder_for_arg p.2)
          ++ ["    return PREVENT_SWITCH;\n"])
  | Kind.Irregular => []

/-- Lines emitted by `write_syscall_record_cases`. -/
def write_syscall_record_cases (reg : Registry) : List String :=
  reg.flatMap recordBlock

/-- Existing content the OutputWriter reads from the target path: the file's
content when it exists, the empty string when it does not.  The file-system
state of the single target path is `none` (absent) or `some content`. -/
def readBefore (st : Option String) : String :=
  match st with
  | some before => before
  | none => ""

/-- Compare-then-write step of `main`: write the generated content only when
it differs from the existing content.  Returns the new file-system state and
whether a write occurred. -/
def outputWrite (st : Option String) (after : String) : Option String × Bool :=
  if readBefore st ≠ after then (some after, true) else (st, false)

/-- Registry invariant "names are unique", strengthened to uppercased names
so that generated constant names are unambiguous. -/
abbrev NodupUpper (reg : Registry) : Prop :=
  (reg.map (fun p => upper p.1)).Nodup

/-- Scenario definition: `read` with x86 code 3 and x64 code 0. -/
def readDef : SyscallDef :=
  { kind := Kind.Regular, x86 := some 3, x64 := some 0 }

/-- Scenario definition: `write` with x86 code 4 and x64 code 1. -/
def writeDef : SyscallDef :=
  { kind := Kind.Regular, x86 := some 4, x64 := some 1 }

/-- Scenario definition: `futex` undefined on x86, x64 code 202. -/
def futexDef : SyscallDef :=
  { kind := Kind.Regular, x86 := none, x64 := some 202 }

/-- The three-syscall scenario registry of the specification. -/
def testRegistry : Registry :=
  [("read", readDef), ("write", writeDef), ("futex", futexDef)]

/-- Concrete `Regular` syscall with descriptors at positions 1 and 3, used to
exercise the recorder generator. -/
def recDef : SyscallDef :=
  { kind := Kind.Regular, x86 := some 7, x64 := some 7,
    arg1 := some "int", arg3 := some "size_t" }

/-- Concrete `Irregular` syscall, used to exercise the recorder generator. -/
def irrDef : SyscallDef :=
  { kind := Kind.Irregular, x86 := some 8, x64 := some 8 }

/-- Concrete syscall whose x86 code is the defined value `0`. -/
def restartDef : SyscallDef :=
  { kind := Kind.Regular, x86 := some 0, x64 := none }

section SortLemmas

variable {arch : Arch}

lemma filter_orderedInsert_of_key (a : String × SyscallDef)
    (l : List (String × SyscallDef)) (k : Int)
    (ha : arch_syscall_number arch a = k) :
    (l.orderedInsert (keyLe arch) a).filter
        (fun x => arch_syscall_number arch x == k)
      = a :: l.filter (fun x => arch_syscall_number arch x == k) := by
  induction l with
  | nil => simp [List.orderedInsert, ha]
  | cons b t ih =>
    by_cases hb : keyLe arch a b
    · simp [List.orderedInsert, hb, ha]
    · have hblt : arch_syscall_number arch b < arch_syscall_number arch a := by
        have := lt_of_not_le (fun h => hb h)
        exact this
      have hbne : (arch_syscall_number arch b == k) = false := by
        simp only [beq_eq_false_iff_ne, ne_eq]
        intro hbk
        rw [hbk, ← ha] at hblt
        exact lt_irrefl _ hblt
      simp only [List.orderedInsert, if_neg hb, List.filter_cons, hbne]
      exact ih

lemma filter_orderedInsert_of_ne (a : String × SyscallDef)
    (l : List (String × SyscallDef)) (k : Int)
    (ha : arch_syscall_number arch a ≠ k) :
    (l.orderedInsert (keyLe arch) a).filter
        (fun x => arch_syscall_number arch x == k)
      = l.filter (fun x => arch_syscall_number arch x == k) := by
  have hane : (arch_syscall_number arch a == k) = false := by
    simpa [beq_eq_false_iff_ne] using ha
  induction l with
  | nil => simp [List.orderedInsert, hane]
  | cons b t ih =>
    by_cases hb : keyLe arch a b
    · simp [List.orderedInsert, hb, List.filter_cons, hane]
    · simp only [List.orderedInsert, if_neg hb, List.filter_cons]
      rw [ih]

/-- Stability of the emission sort: for every key value, the syscalls carrying
that key appear in the sorted enumeration exactly as the registry enumerates
them. -/
lemma filter_sortedSyscalls (reg : Registry) (k : Int) :
    (sortedSyscalls arch reg).filter (fun x => arch_syscall_number arch x == k)
      = reg.filter (fun x => arch_syscall_number arch x == k) := by
  induction reg with
  | nil => rfl
  | cons a t ih =>
    by_cases ha : arch_syscall_number arch a = k
    · have := filter_orderedInsert_of_key a
        (t.insertionSort (keyLe arch)) k ha
      simpa [sortedSyscalls, List.insertionSort, this, List.filter_cons, ha]
        using congrArg (List.cons a) ih
    · have := filter_orderedInsert_of_ne a
        (t.insertionSort (keyLe arch)) k ha
      have hane : (arch_syscall_number arch a == k) = false := by
        simpa [beq_eq_false_iff_ne] using ha
      simpa [sortedSyscalls, List.insertionSort, this, List.filter_cons, hane]
        using ih

end SortLemmas

/-- Names in the loop output: each syscall contributes exactly its uppercased
name, in order, whatever the sentinel counter. -/
lemma map_fst_consts_loop (arch : Arch) :
    ∀ (l : List (String × SyscallDef)) (u : Int),
      (write_syscall_consts_loop arch l u).map Prod.fst
        = l.map (fun p => upper p.1)
  | [], _ => rfl
  | (name, obj) :: rest, u => by
    cases hc : getArch obj arch with
    | some c =>
        simp [write_syscall_consts_loop, hc, map_fst_consts_loop arch rest u]
    | none =>
        simp [write_syscall_consts_loop, hc,
          map_fst_consts_loop arch rest (u - 1)]

/-- C3: constant generation emits syscalls in the order of the stable sort of
the registry enumeration by the key `arch_syscall_number` ("numeric code, with
-1 substituted when undefined"): the emission order is a permutation of the
registry, is sorted by the key, and syscalls sharing a key keep their registry
relative order. -/
theorem consts_emission_is_stable_sort (arch : Arch) (reg : Registry) :
    (sortedSyscalls arch reg).Perm reg
      ∧ (sortedSyscalls arch reg).Sorted (keyLe arch)
      ∧ (∀ k : Int,
          (sortedSyscalls arch reg).filter
              (fun x => arch_syscall_number arch x == k)
            = reg.filter (fun x => arch_syscall_number arch x == k))
      ∧ (constsEntries arch reg).map Prod.fst
          = (sortedSyscalls arch reg).map (fun p => upper p.1) :=
  ⟨List.perm_insertionSort _ reg, List.sorted_insertionSort _ reg,
    fun k => filter_sortedSyscalls reg k,
    map_fst_consts_loop arch (sortedSyscalls arch reg) (-1)⟩

/-- Sentinel extraction: whatever the starting counter `u`, the values the
loop assigns at undefined positions are `u, u-1, u-2, …`, one per undefined
syscall, in emission order. -/
lemma undefValues_consts_loop (arch : Arch) :
    ∀ (l : List (String × SyscallDef)) (u : Int),
      undefValues arch l u
        = (List.range (countUndef arch l)).map (fun i : Nat => u - (i : Int))
  | [], _ => rfl
  | (name, obj) :: rest, u => by
    cases hc : getArch obj arch with
    | some c =>
        have hstep : undefValues arch ((name, obj) :: rest) u
            = undefValues arch rest u := by
          simp [undefValues, write_syscall_consts_loop, hc]
        have hcount : countUndef arch ((name, obj) :: rest)
            = countUndef arch rest := by
          simp [countUndef, List.countP_cons, hc]
        rw [hstep, hcount, undefValues_consts_loop arch rest u]
    | none =>
        have hstep : undefValues arch ((name, obj) :: rest) u
            = u :: undefValues arch rest (u - 1) := by
          simp [undefValues, write_syscall_consts_loop, hc]
        have hcount : countUndef arch ((name, obj) :: rest)
            = countUndef arch rest + 1 := by
          simp [countUndef, List.countP_cons, hc]
        rw [hstep, hcount, undefValues_consts_loop arch rest (u - 1),
          List.range_succ_eq_map, List.map_cons, List.map_map]
        refine congrArg₂ List.cons (by simp) ?_
        apply List.map_congr_left
        intro a _
        show u - 1 - (a : Int) = u - ((a.succ : Nat) : Int)
        push_cast
        ring

/-- C2: for every architecture, the sentinel values assigned to syscalls
undefined on that architecture form exactly the sequence -1, -2, -3, … in
emission order, hence are pairwise distinct and strictly negative. -/
theorem sentinel_values_sequence (arch : Arch) (reg : Registry) :
    undefValues arch (sortedSyscalls arch reg) (-1)
        = (List.range (countUndef arch (sortedSyscalls arch reg))).map
            (fun i : Nat => -1 - (i : Int))
      ∧ (undefValues arch (sortedSyscalls arch reg) (-1)).Nodup
      ∧ (∀ v ∈ undefValues arch (sortedSyscalls arch reg) (-1), v < 0)
      ∧ countUndef arch (sortedSyscalls arch reg) = countUndef arch reg := by
  have heq := undefValues_consts_loop arch (sortedSyscalls arch reg) (-1)
  refine ⟨heq, ?_, ?_, ?_⟩
  · rw [heq]
    refine List.Nodup.map ?_ (List.nodup_range _)
    intro a b hab
    have hab' : (-1 : Int) - (a : Int) = -1 - (b : Int) := hab
    omega
  · intro v hv
    rw [heq] at hv
    obtain ⟨i, _, hi⟩ := List.mem_map.mp hv
    have hi' : (-1 : Int) - (i : Int) = v := hi
    omega
  · exact (List.perm_insertionSort (keyLe arch) reg).countP_eq _

/-- Defined syscalls reach the loop output: a syscall with a defined code
contributes the pair (uppercased name, code), whatever the counter. -/
lemma mem_consts_loop_of_defined (arch : Arch) {name : String}
    {obj : SyscallDef} {c : Nat} :
    ∀ (l : List (String × SyscallDef)) (u : Int), (name, obj) ∈ l →
      getArch obj arch = some c →
      (upper name, (c : Int)) ∈ write_syscall_consts_loop arch l u
  | [], _, hmem, _ => absurd hmem (List.not_mem_nil _)
  | (n', o') :: rest, u, hmem, hc => by
    rcases List.mem_cons.mp hmem with heq | htail
    · obtain ⟨hn, ho⟩ := Prod.mk.injEq .. ▸ heq
      subst hn
      subst ho
      simp [write_syscall_consts_loop, hc]
    · cases hc' : getArch o' arch with
      | some c' =>
          simpa [write_syscall_consts_loop, hc'] using
            Or.inr (mem_consts_loop_of_defined arch rest u htail hc)
      | none =>
          simpa [write_syscall_consts_loop, hc'] using
            Or.inr (mem_consts_loop_of_defined arch rest (u - 1) htail hc)

/-- Occurrences of a constant name in the loop output match occurrences of
the uppercased syscall name in the input. -/
lemma countP_key_consts_loop (arch : Arch) (k : String) :
    ∀ (l : List (String × SyscallDef)) (u : Int),
      (write_syscall_consts_loop arch l u).countP (fun p => p.1 == k)
        = l.countP (fun p => upper p.1 == k)
  | [], _ => rfl
  | (name, obj) :: rest, u => by
    cases hc : getArch obj arch with
    | some c =>
        simp [write_syscall_consts_loop, hc, List.countP_cons,
          countP_key_consts_loop arch k rest u]
    | none =>
        simp [write_syscall_consts_loop, hc, List.countP_cons,
          countP_key_consts_loop arch k rest (u - 1)]

/-- With unique uppercased registry names, the generated constant names are
pairwise distinct. -/
lemma nodup_fst_constsEntries (arch : Arch) (reg : Registry)
    (hnd : NodupUpper reg) : ((constsEntries arch reg).map Prod.fst).Nodup := by
  have hmap := map_fst_consts_loop arch (sortedSyscalls arch reg) (-1)
  show ((write_syscall_consts_loop arch (sortedSyscalls arch reg) (-1)).map
    Prod.fst).Nodup
  rw [hmap]
  exact ((List.perm_insertionSort (keyLe arch) reg).map
    (fun p => upper p.1)).nodup_iff.mpr hnd

/-- First-match lookup in an association list with pairwise-distinct keys
finds exactly the member with the requested key. -/
lemma find?_fst_eq {α β : Type} [BEq α] [LawfulBEq α] :
    ∀ (l : List (α × β)) (k : α) (v : β), (k, v) ∈ l →
      (l.map Prod.fst).Nodup → l.find? (fun p => p.1 == k) = some (k, v)
  | [], _, _, hmem, _ => absurd hmem (List.not_mem_nil _)
  | (a, b) :: t, k, v, hmem, hnd => by
    by_cases hak : a = k
    · subst hak
      rw [List.find?_cons_of_pos (p := fun p => p.1 == a) t (by simp)]
      rcases List.mem_cons.mp hmem with heq | htail
      · exact congrArg some heq.symm
      · exfalso
        have : a ∈ t.map Prod.fst :=
          List.mem_map.mpr ⟨(a, v), htail, rfl⟩
        exact (List.nodup_cons.mp hnd).1 this
    · rw [List.find?_cons_of_neg (p := fun p => p.1 == k) t (by simp [hak])]
      rcases List.mem_cons.mp hmem with heq | htail
      · exact absurd (congrArg Prod.fst heq.symm) hak
      · exact find?_fst_eq t k v htail (List.nodup_cons.mp hnd).2

/-- C1: for every architecture and every syscall with a defined code, the
generated constant table holds exactly one entry under the syscall's
uppercased canonical name, that entry's value is the code verbatim, and the
rendered constant line appears in the emitted text. -/
theorem consts_entry_for_defined (arch : Arch) (reg : Registry)
    (name : String) (obj : SyscallDef) (c : Nat) (hnd : NodupUpper reg)
    (hmem : (name, obj) ∈ reg) (hc : getArch obj arch = some c) :
    (constsEntries arch reg).countP (fun p => p.1 == upper name) = 1
      ∧ (upper name, (c : Int)) ∈ constsEntries arch reg
      ∧ ("pub const " ++ upper name ++ " : i32 = " ++ toString ((c : Nat) : Int)
          ++ ";\n") ∈ write_syscall_consts arch reg := by
  refine ⟨?_, ?_, ?_⟩
  · have hperm : (sortedSyscalls arch reg).Perm reg :=
      List.perm_insertionSort (keyLe arch) reg
    have h1 : (constsEntries arch reg).countP (fun p => p.1 == upper name)
        = (sortedSyscalls arch reg).countP (fun p => upper p.1 == upper name) :=
      countP_key_consts_loop arch (upper name) (sortedSyscalls arch reg) (-1)
    have h2 : (sortedSyscalls arch reg).countP
          (fun p => upper p.1 == upper name)
        = reg.countP (fun p => upper p.1 == upper name) :=
      hperm.countP_eq _
    have h3 : (reg.map (fun p => upper p.1)).count (upper name) = 1 :=
      List.count_eq_one_of_mem hnd
        (List.mem_map.mpr ⟨(name, obj), hmem, rfl⟩)
    have h4 : (reg.map (fun p => upper p.1)).countP
        (fun s => s == upper name) = 1 := h3
    rw [List.countP_map] at h4
    rw [h1, h2]
    exact h4
  · exact mem_consts_loop_of_defined arch (sortedSyscalls arch reg) (-1)
      ((List.mem_insertionSort (keyLe arch)).mpr hmem) hc
  · refine List.mem_append_left _ ?_
    exact List.mem_map.mpr ⟨(upper name, (c : Int)),
      mem_consts_loop_of_defined arch (sortedSyscalls arch reg) (-1)
        ((List.mem_insertionSort (keyLe arch)).mpr hmem) hc, rfl⟩

/-- Witness for C1 on the scenario registry: the `read` syscall on x86. -/
theorem consts_entry_for_defined_witness :
    (constsEntries Arch.x86 testRegistry).countP
        (fun p => p.1 == upper "read") = 1
      ∧ (upper "read", ((3 : Nat) : Int)) ∈ constsEntries Arch.x86 testRegistry
      ∧ ("pub const " ++ upper "read" ++ " : i32 = "
          ++ toString ((3 : Nat) : Int) ++ ";\n")
            ∈ write_syscall_consts Arch.x86 testRegistry :=
  consts_entry_for_defined Arch.x86 testRegistry "read" readDef 3
    (by decide) (by decide) (by decide)

/-- The generated constant of a syscall with a defined code is that code. -/
lemma genConst_defined (arch : Arch) (reg : Registry) (name : String)
    (obj : SyscallDef) (c : Nat) (hnd : NodupUpper reg)
    (hmem : (name, obj) ∈ reg) (hc : getArch obj arch = some c) :
    genConst arch reg name = some ((c : Nat) : Int) := by
  have hfind :=
    find?_fst_eq (constsEntries arch reg) (upper name) ((c : Nat) : Int)
      (consts_entry_for_defined arch reg name obj c hnd hmem hc).2.1
      (nodup_fst_constsEntries arch reg hnd)
  show ((constsEntries arch reg).find? (fun p => p.1 == upper name)).map
    Prod.snd = some ((c : Nat) : Int)
  rw [hfind]
  rfl

/-- C5: for every architecture and every syscall with a defined code `c`, the
generated helpers answer `is(s, c, A) = true` and `has(s, A) = true`; and for
every syscall and every strictly negative code, `is(s, code, A) = false`. -/
theorem is_has_syscall_correct (arch : Arch) (reg : Registry)
    (hnd : NodupUpper reg) :
    (∀ (name : String) (obj : SyscallDef) (c : Nat),
        (name, obj) ∈ reg → getArch obj arch = some c →
        is_syscall reg name ((c : Nat) : Int) arch = true
          ∧ has_syscall reg name arch = true)
      ∧ (∀ (name : String) (code : Int), code < 0 →
          is_syscall reg name code arch = false) := by
  constructor
  · intro name obj c hmem hc
    have hg := genConst_defined arch reg name obj c hnd hmem hc
    constructor
    · simp [is_syscall, hg, Int.natCast_nonneg]
    · simp [has_syscall, hg, Int.natCast_nonneg]
  · intro name code hcode
    have hlt : ¬ (0 : Int) ≤ code := not_le.mpr hcode
    cases hg : genConst arch reg name with
    | none => simp [is_syscall, hg]
    | some k => simp [is_syscall, hg, hlt]

/-- Witness for C5 on the scenario registry: `read` with x86 code 3, and a
negative code query. -/
theorem is_has_syscall_correct_witness :
    (is_syscall testRegistry "read" ((3 : Nat) : Int) Arch.x86 = true
        ∧ has_syscall testRegistry "read" Arch.x86 = true)
      ∧ is_syscall testRegistry "write" (-5) Arch.x86 = false :=
  ⟨(is_has_syscall_correct Arch.x86 testRegistry (by decide)).1
      "read" readDef 3 (by decide) (by decide),
    (is_has_syscall_correct Arch.x86 testRegistry (by decide)).2
      "write" (-5) (by decide)⟩

/-- C6: the generated name-resolution function is total over the integers:
every code defined on the architecture resolves to that syscall's canonical
name, every other integer — negative values included — resolves to the
`<unknown-syscall-{code}>` fallback, and every match arm stems from a syscall
with a defined code. -/
theorem syscallname_arch_correct (arch : Arch) (reg : Registry)
    (hnd : ((syscallname_arms arch reg).map Prod.fst).Nodup) :
    (∀ (name : String) (obj : SyscallDef) (c : Nat),
        (name, obj) ∈ reg → getArch obj arch = some c →
        syscallname_arch arch reg ((c : Nat) : Int) = name)
      ∧ (∀ code : Int,
          (∀ p ∈ for_arch arch reg, arch_syscall_number arch p ≠ code) →
          syscallname_arch arch reg code
            = "<unknown-syscall-" ++ toString code ++ ">")
      ∧ (∀ code : Int, code < 0 →
          syscallname_arch arch reg code
            = "<unknown-syscall-" ++ toString code ++ ">")
      ∧ (∀ a ∈ syscallname_arms arch reg,
          ∃ (name : String) (obj : SyscallDef) (c : Nat),
            (name, obj) ∈ reg ∧ getArch obj arch = some c
              ∧ a = (((c : Nat) : Int), name)) := by
  have hkey_nonneg : ∀ p ∈ for_arch arch reg,
      0 ≤ arch_syscall_number arch p := by
    intro p hp
    have hsome := (List.mem_filter.mp hp).2
    obtain ⟨c, hc⟩ := Option.isSome_iff_exists.mp hsome
    simp [arch_syscall_number, hc]
  have hfallback : ∀ code : Int,
      (∀ p ∈ for_arch arch reg, arch_syscall_number arch p ≠ code) →
      syscallname_arch arch reg code
        = "<unknown-syscall-" ++ toString code ++ ">" := by
    intro code hnone
    have hfind : (syscallname_arms arch reg).find? (fun a => a.1 == code)
        = none := by
      apply List.find?_eq_none.mpr
      intro a ha
      obtain ⟨p, hp, rfl⟩ := List.mem_map.mp ha
      simp [hnone p hp]
    simp [syscallname_arch, hfind]
  refine ⟨?_, hfallback, ?_, ?_⟩
  · intro name obj c hmem hc
    have hp : (name, obj) ∈ for_arch arch reg :=
      List.mem_filter.mpr ⟨hmem, by simp [hc]⟩
    have harm : (((c : Nat) : Int), name) ∈ syscallname_arms arch reg := by
      have hmapped : (arch_syscall_number arch (name, obj), name)
          ∈ syscallname_arms arch reg :=
        List.mem_map_of_mem (fun p => (arch_syscall_number arch p, p.1)) hp
      have hkey : arch_syscall_number arch (name, obj) = ((c : Nat) : Int) := by
        simp [arch_syscall_number, hc]
      rwa [hkey] at hmapped
    have hfind := find?_fst_eq (syscallname_arms arch reg) ((c : Nat) : Int)
      name harm hnd
    simp [syscallname_arch, hfind]
  · intro code hcode
    refine hfallback code ?_
    intro p hp heq
    have := hkey_nonneg p hp
    omega
  · intro a ha
    obtain ⟨p, hp, rfl⟩ := List.mem_map.mp ha
    have hpm := List.mem_filter.mp hp
    obtain ⟨c, hc⟩ := Option.isSome_iff_exists.mp hpm.2
    refine ⟨p.1, p.2, c, hpm.1, hc, ?_⟩
    simp [arch_syscall_number, hc]

/-- Witness for C6 on the scenario registry: x86 resolution of codes 3 and
99. -/
theorem syscallname_arch_correct_witness :
    syscallname_arch Arch.x86 testRegistry ((3 : Nat) : Int) = "read"
      ∧ syscallname_arch Arch.x86 testRegistry 99
          = "<unknown-syscall-" ++ toString (99 : Int) ++ ">" :=
  ⟨(syscallname_arch_correct Arch.x86 testRegistry (by decide)).1
      "read" readDef 3 (by decide) (by decide),
    (syscallname_arch_correct Arch.x86 testRegistry (by decide)).2.1
      99 (by decide)⟩

/-- Counterexample to C4: a syscall whose x86 code is the defined value 0 —
the Python guard `if not obj.x86: continue` is a truthiness test, so the
static-assertion generator emits nothing for it. -/
theorem check_numbers_zero_code_counterexample :
    restartDef.x86 = some 0
      ∧ write_check_syscall_numbers [("restart_syscall", restartDef)] = [] :=
  ⟨rfl, rfl⟩

/-- C4 (amended): the static-assertion generator emits exactly one assertion
line per syscall whose x86 code is defined and nonzero, in registry order, and
no line for syscalls whose x86 code is undefined or zero. -/
theorem check_numbers_truthiness (reg : Registry) :
    write_check_syscall_numbers reg
      = (reg.filter (fun p => match p.2.x86 with
            | some c => decide (c ≠ 0)
            | none => false)).map
          (fun p => "static_assert(X86Arch::" ++ p.1 ++ " == SYS_" ++ p.1
            ++ ", \"Incorrect syscall number for " ++ p.1 ++ "\");\n") := by
  induction reg with
  | nil => rfl
  | cons q t ih =>
    obtain ⟨n, o⟩ := q
    cases ho : o.x86 with
    | none =>
        simpa [write_check_syscall_numbers, List.filterMap_cons,
          List.filter_cons, ho] using ih
    | some c =>
        cases c with
        | zero =>
            simpa [write_check_syscall_numbers, List.filterMap_cons,
              List.filter_cons, ho] using ih
        | succ m =>
            simpa [write_check_syscall_numbers, List.filterMap_cons,
              List.filter_cons, ho] using ih

/-- Counterexample to C7's x86 ordering: on the scenario registry the x86
constant table is emitted with FUTEX first (its sort key is the sentinel
substitute -1), not in the listed order READ, WRITE, FUTEX. -/
theorem scenario_x86_order_counterexample :
    constsEntries Arch.x86 testRegistry
        = [("FUTEX", -1), ("READ", 3), ("WRITE", 4)]
      ∧ constsEntries Arch.x86 testRegistry
          ≠ [("READ", 3), ("WRITE", 4), ("FUTEX", -1)] := by
  constructor
  · decide
  · decide

/-- C7 (amended): on the scenario registry, x86 constant generation yields
FUTEX=-1, READ=3, WRITE=4 in emission order; x64 yields READ=0, WRITE=1,
FUTEX=202 as listed; x86 name resolution maps 3 to "read", 4 to "write" and
99 to the unknown-syscall fallback. -/
theorem scenario_registry_outputs :
    constsEntries Arch.x86 testRegistry
        = [("FUTEX", -1), ("READ", 3), ("WRITE", 4)]
      ∧ write_syscall_consts Arch.x86 testRegistry
          = ["pub const FUTEX : i32 = -1;\n", "pub const READ : i32 = 3;\n",
              "pub const WRITE : i32 = 4;\n", "\n"]
      ∧ constsEntries Arch.x64 testRegistry
          = [("READ", 0), ("WRITE", 1), ("FUTEX", 202)]
      ∧ syscallname_arch Arch.x86 testRegistry 3 = "read"
      ∧ syscallname_arch Arch.x86 testRegistry 4 = "write"
      ∧ syscallname_arch Arch.x86 testRegistry 99 = "<unknown-syscall-99>" := by
  refine ⟨by decide, by decide, by decide, by decide, by decide, by decide⟩

/-- C8: the argument recorder emits one dispatch case per `Regular` syscall
and none for `Irregular` syscalls; inside a case the argument positions 1..5
are visited in increasing order, a registration line is emitted exactly for
the positions carrying a descriptor, and the case closes with the single stop
directive — also when there are no descriptors at all. -/
theorem record_cases_structure (reg : Registry) :
    write_syscall_record_cases reg = reg.flatMap recordBlock
      ∧ (∀ p : String × SyscallDef, p.2.kind = Kind.Irregular →
          recordBlock p = [])
      ∧ (∀ p : String × SyscallDef, p.2.kind = Kind.Regular →
          recordBlock p
            = ("  case Arch::" ++ p.1 ++ ":\n")
              :: ((List.range' 1 5).filterMap (write_recorder_for_arg p.2)
                ++ ["    return PREVENT_SWITCH;\n"]))
      ∧ (∀ (obj : SyscallDef) (s : String),
          s ∈ (List.range' 1 5).filterMap (write_recorder_for_arg obj)
            ↔ ∃ i ∈ List.range' 1 5, ∃ d, argDescriptor obj i = some d
                ∧ s = "    syscall_state.reg_parameter<" ++ d ++ ">("
                    ++ toString i ++ ");\n")
      ∧ (∀ p : String × SyscallDef, p.2.kind = Kind.Regular →
          (∀ i, argDescriptor p.2 i = none) →
          recordBlock p = ["  case Arch::" ++ p.1 ++ ":\n",
            "    return PREVENT_SWITCH;\n"])
      ∧ (List.range' 1 5).Sorted (· < ·) := by
  refine ⟨rfl, ?_, ?_, ?_, ?_, by decide⟩
  · intro p hk
    simp [recordBlock, hk]
  · intro p hk
    simp [recordBlock, hk]
  · intro obj s
    constructor
    · intro hs
      obtain ⟨i, hi, hf⟩ := List.mem_filterMap.mp hs
      cases hd : argDescriptor obj i with
      | none => simp [write_recorder_for_arg, hd] at hf
      | some d =>
          simp [write_recorder_for_arg, hd] at hf
          exact ⟨i, hi, d, hd, hf.symm⟩
    · rintro ⟨i, hi, d, hd, rfl⟩
      exact List.mem_filterMap.mpr ⟨i, hi, by simp [write_recorder_for_arg, hd]⟩
  · intro p hk hnone
    have hfm : (List.range' 1 5).filterMap (write_recorder_for_arg p.2)
        = [] :=
      List.filterMap_eq_nil_iff.mpr
        (fun i _ => by simp [write_recorder_for_arg, hnone i])
    simp [recordBlock, hk, hfm]

/-- Witness for C8: an `Irregular` syscall contributes nothing, and a
`Regular` syscall's case block has the claimed shape. -/
theorem record_cases_structure_witness :
    recordBlock ("epoll_wait", irrDef) = []
      ∧ recordBlock ("llseek", recDef)
        = ("  case Arch::" ++ "llseek" ++ ":\n")
            :: ((List.range' 1 5).filterMap (write_recorder_for_arg recDef)
              ++ ["    return PREVENT_SWITCH;\n"]) :=
  ⟨(record_cases_structure []).2.1 ("epoll_wait", irrDef) rfl,
    (record_cases_structure []).2.2.1 ("llseek", recDef) rfl⟩

/-- Running the compare-then-write step a second time with the same content
writes nothing and leaves the state unchanged. -/
lemma outputWrite_second (st : Option String) (content : String) :
    outputWrite (outputWrite st content).1 content
      = ((outputWrite st content).1, false) := by
  by_cases h : readBefore st = content
  · have h1 : outputWrite st content = (st, false) := by
      simp [outputWrite, h]
    rw [h1]
    exact h1
  · have h1 : outputWrite st content = (some content, true) := by
      simp [outputWrite, h]
    rw [h1]
    show outputWrite (some content) content = (some content, false)
    simp [outputWrite, readBefore]

/-- C9: the OutputWriter writes exactly when the generated content differs
from the existing content (empty for a missing file), and a second run with
the same content — in particular regenerating any constant table from an
unchanged registry — performs no write and leaves the file unchanged. -/
theorem output_writer_idempotent (st : Option String) (content : String) :
    ((outputWrite st content).2 = true ↔ readBefore st ≠ content)
      ∧ outputWrite (outputWrite st content).1 content
          = ((outputWrite st content).1, false)
      ∧ (∀ (arch : Arch) (reg : Registry),
          outputWrite
              (outputWrite st (String.join (write_syscall_consts arch reg))).1
              (String.join (write_syscall_consts arch reg))
            = ((outputWrite st
                  (String.join (write_syscall_consts arch reg))).1, false)) := by
  refine ⟨?_, outputWrite_second st content,
    fun arch reg => outputWrite_second st _⟩
  by_cases h : readBefore st = content
  · simp [outputWrite, h]
  · simp [outputWrite, h]

/-- The duplicated for-tests loop computes exactly the pairs of the main
loop. -/
lemma for_tests_loop_eq (arch : Arch) :
    ∀ (l : List (String × SyscallDef)) (u : Int),
      write_syscall_consts_for_tests_loop arch l u
        = write_syscall_consts_loop arch l u
  | [], _ => rfl
  | (name, obj) :: rest, u => by
    cases hc : getArch obj arch with
    | some c =>
        simp [write_syscall_consts_for_tests_loop, write_syscall_consts_loop,
          hc, for_tests_loop_eq arch rest u]
    | none =>
        simp [write_syscall_consts_for_tests_loop, write_syscall_consts_loop,
          hc, for_tests_loop_eq arch rest (u - 1)]

/-- C10: the main and for-tests constant generators assign the identical
ordered sequence of (name, value) pairs and differ only in line format, the
for-tests variant prefixing `RR_` to the uppercased name. -/
theorem consts_for_tests_same_pairs (arch : Arch) (reg : Registry) :
    constsForTestsEntries arch reg = constsEntries arch reg
      ∧ write_syscall_consts arch reg
          = (constsEntries arch reg).map
              (fun p => "pub const " ++ p.1 ++ " : i32 = " ++ toString p.2
                ++ ";\n") ++ ["\n"]
      ∧ write_syscall_consts_for_tests arch reg
          = (constsEntries arch reg).map
              (fun p => "pub const RR_" ++ p.1 ++ " = " ++ toString p.2
                ++ ",\n") ++ ["\n"] := by
  have h : constsForTestsEntries arch reg = constsEntries arch reg :=
    for_tests_loop_eq arch (sortedSyscalls arch reg) (-1)
  refine ⟨h, rfl, ?_⟩
  show (constsForTestsEntries arch reg).map _ ++ _ = _
  rw [h]

end GenSyscalls
